import Mathlib

/-!
Shallow embedding of `zapcore/sampler.go` (package zapcore of the zap
logging library): the message-frequency sampler, its two counter
implementations (the exact map-based `counters` and the sharded
`counters2`), the `xorstring`/`xshrr` hash, and the `Sample` constructor
with its `Check` decision path.

Conventions of the embedding:
- Go `uint64` arithmetic is `Nat` taken `% U64` (with `U64 = 2 ^ 64`)
  exactly where the Go operation can overflow (`n++` on a counter,
  `n << 8` in the hash fold, conversions `uint64(x)`).
- A key (Go string, indexed byte by byte) is a list of byte values.
- Go runtime panics are modelled as `Option`-valued operations returning
  `none`: `counters.Reset` dereferences a nil pointer for an unseen key,
  and `Check` divides by zero when `thereafter = 0` reaches the modulo.
- Stateful methods become explicit state passing: a method returns the
  updated receiver together with its Go return value.  The calls `Check`
  makes to the wrapped facility and to `time.AfterFunc` are recorded
  explicitly in its result (a forwarded flag and an optional armed timer).
-/

namespace Zap

/-- A Go string viewed as its byte sequence (the sampler only ever indexes
strings byte by byte). -/
def Key : Type := List Nat

instance : DecidableEq Key := by
  unfold Key
  infer_instance

/-- The modulus of Go `uint64` arithmetic. -/
def U64 : Nat := 2 ^ 64

/-- The modulus of Go `uint32` arithmetic. -/
def U32 : Nat := 2 ^ 32

/-! ### The exact, map-based counters (`type counters` in the source) -/

/-- Lookup in a Go map modelled as an association list
(`c.counts[key]`, yielding `none` when the key is absent). -/
def lookupKey : List (Key × Nat) → Key → Option Nat
  | [], _ => none
  | (k', v) :: rest, k => if k' = k then some v else lookupKey rest k

/-- Store into a Go map modelled as an association list
(`c.counts[key] = v`, overwriting in place or appending). -/
def updateAssoc : List (Key × Nat) → Key → Nat → List (Key × Nat)
  | [], k, v => [(k, v)]
  | (k', v') :: rest, k, v =>
    if k' = k then (k, v) :: rest else (k', v') :: updateAssoc rest k v

/-- Go `type counters struct { sync.RWMutex; counts map[string]*atomic.Uint64 }`.
The lock only serialises access and has no sequential content; the map is
an association list. -/
structure Counters where
  counts : List (Key × Nat)

/-- Go `newCounters()`: an empty map. -/
def Counters.new : Counters := ⟨[]⟩

/-- Go `(c *counters) Inc(key string) uint64`: if the key is present its
atomic counter is incremented (wrapping `uint64`) and the new value
returned; otherwise a counter initialised to 1 is created and 1 returned.
The double-checked locking in the source collapses sequentially to this
lookup-then-update. -/
def Counters.Inc (c : Counters) (key : Key) : Counters × Nat :=
  match lookupKey c.counts key with
  | some n =>
    ((⟨updateAssoc c.counts key ((n + 1) % U64)⟩ : Counters), (n + 1) % U64)
  | none => ((⟨updateAssoc c.counts key 1⟩ : Counters), 1)

/-- Go `(c *counters) Reset(key string)`: `count := c.counts[key]` followed
by `count.Store(0)`.  When the key has never been incremented the map
lookup yields a nil pointer and `Store` dereferences it — a runtime panic,
modelled as `none`. -/
def Counters.Reset (c : Counters) (key : Key) : Option Counters :=
  match lookupKey c.counts key with
  | some _ => some (⟨updateAssoc c.counts key 0⟩ : Counters)
  | none => none

/-- The stored count of a key (0 when absent); the observable state of one
exact counter. -/
def countOf (c : Counters) (key : Key) : Nat :=
  (lookupKey c.counts key).getD 0

/-! ### The hash (`xorstring`, `xshrr`) and the sharded counters2 -/

/-- Go `_counters2PerLock = 8`. -/
def counters2PerLock : Nat := 8

/-- Go `_counters2BucketMask = _counters2PerLock - 1`. -/
def counters2BucketMask : Nat := counters2PerLock - 1

/-- Go `_counters2Width = 8192`. -/
def counters2Width : Nat := 8192

/-- Go `func xorstring(s string) uint64`: fold the bytes left to right with
`n = ((n & 0xff) >> 56) | (n << 8); n ^= uint64(s[i])`, all in `uint64`
arithmetic.  A byte value is reduced `% 256` to reflect the Go `byte`
type of `s[i]`. -/
def xorstring (s : Key) : Nat :=
  List.foldl (fun n b => (((n &&& 0xff) >>> 56) ||| ((n <<< 8) % U64)) ^^^ (b % 256)) 0 s

/-- Go `func xshrr(n uint64) uint32`: the XSH-RR output permutation,
`xorshifted := uint32(((n >> 18) ^ n) >> 27)`, `rot := uint32(n >> 59)`,
result `(xorshifted >> rot) | (xorshifted << ((-rot) & 31))`, where `-rot`
is `uint32` two's-complement negation. -/
def xshrr (n : Nat) : Nat :=
  let xorshifted := (((n >>> 18) ^^^ n) >>> 27) % U32
  let rot := (n >>> 59) % U32
  (xorshifted >>> rot) ||| ((xorshifted <<< (((U32 - rot) % U32) &&& 31)) % U32)

/-- Go `type bucket2 struct { sync.Mutex; counts [8]uint64 }`; the eight
slots are a function from the slot index. -/
structure Bucket2 where
  counts : Nat → Nat

/-- Go `(b *bucket2) inc(i uint32, key string) uint64`: read, increment
(wrapping `uint64`), write back, return the new value.  The key parameter
is unused in the source. -/
def Bucket2.inc (b : Bucket2) (i : Nat) : Bucket2 × Nat :=
  ((⟨Function.update b.counts i ((b.counts i + 1) % U64)⟩ : Bucket2), (b.counts i + 1) % U64)

/-- Go `(b *bucket2) reset(i uint32, key string)`: store zero. -/
def Bucket2.reset (b : Bucket2) (i : Nat) : Bucket2 :=
  (⟨Function.update b.counts i 0⟩ : Bucket2)

/-- Go `type counters2 [_counters2Width]bucket2`, a fixed array of buckets
(zero-valued at creation); modelled as a function from the bucket index. -/
structure Counters2 where
  buckets : Nat → Bucket2

/-- Go `newCounters2()`: the zero-valued array. -/
def Counters2.new : Counters2 := ⟨fun _ => ⟨fun _ => 0⟩⟩

/-- Go `(c *counters2) hash(key string) uint32`:
`xshrr(xorstring(key)) % _counters2Width`.  The receiver is unused. -/
def Counters2.hash (key : Key) : Nat :=
  xshrr (xorstring key) % counters2Width

/-- Go `(c *counters2) Inc(key string) uint64`:
`i := c.hash(key); return c[i/_counters2PerLock].inc(i&_counters2BucketMask, key)`. -/
def Counters2.Inc (c : Counters2) (key : Key) : Counters2 × Nat :=
  let i := Counters2.hash key
  let r := (c.buckets (i / counters2PerLock)).inc (i &&& counters2BucketMask)
  ((⟨Function.update c.buckets (i / counters2PerLock) r.1⟩ : Counters2), r.2)

/-- Go `(c *counters2) Reset(key string)`:
`i := c.hash(key); c[i/_counters2PerLock].reset(i&_counters2BucketMask, key)`. -/
def Counters2.Reset (c : Counters2) (key : Key) : Counters2 :=
  let i := Counters2.hash key
  (⟨Function.update c.buckets (i / counters2PerLock)
      ((c.buckets (i / counters2PerLock)).reset (i &&& counters2BucketMask))⟩ : Counters2)

/-- The stored count a key observes in the sharded table: the single slot
addressed by `hash key` (bucket `hash key / 8`, slot `hash key &&& 7`). -/
def Counters2.read (c : Counters2) (key : Key) : Nat :=
  (c.buckets (Counters2.hash key / counters2PerLock)).counts
    (Counters2.hash key &&& counters2BucketMask)

/-! ### The sampler facility (`Sample`, `sampler.Check`) -/

/-- The two fields of a log entry the sampler reads: `Message` (the
sampling key) and `Level`. -/
structure Entry where
  message : Key
  level : Int

/-- The wrapped logging capability (Go interface `Facility`), reduced to
the two methods `Check` exercises: `Enabled(level)` and
`Check(entry, *CheckedEntry)`.  The `*CheckedEntry` accumulator is an
opaque token, modelled as a `Nat`. -/
structure Facility where
  enabled : Int → Bool
  check : Entry → Nat → Nat

/-- A one-shot reset timer as armed by `time.AfterFunc(s.tick, func() {
s.counts.Reset(ent.Message) })`: its delay and the key its callback will
reset. -/
structure Timer where
  delay : Int
  key : Key

/-- Go `type sampler struct { Facility; tick; counts; first; thereafter }`.
`first` and `thereafter` hold the `uint64`-converted construction
arguments. -/
structure Sampler where
  fac : Facility
  tick : Int
  counts : Counters
  first : Nat
  thereafter : Nat

/-- Go conversion `uint64(x)` of a signed integer: two's-complement
reinterpretation, i.e. the representative of `x` modulo `2 ^ 64`. -/
def uint64OfInt (x : Int) : Nat :=
  (x % (U64 : Int)).toNat

/-- Go `func Sample(fac Facility, tick time.Duration, first, thereafter int)
Facility`: builds the sampler with a fresh exact counters map
(`newCounters()`), converting `first` and `thereafter` by `uint64(·)`
with no validation of any argument. -/
def Sample (fac : Facility) (tick : Int) (first thereafter : Int) : Sampler :=
  { fac := fac
    tick := tick
    counts := Counters.new
    first := uint64OfInt first
    thereafter := uint64OfInt thereafter }

/-- The observable outcome of one `sampler.Check` call: the updated
sampler, the returned `*CheckedEntry` token, whether the call was
forwarded to the wrapped facility's `Check`, and the timer armed via
`time.AfterFunc`, if any. -/
structure CheckOut where
  sampler : Sampler
  ce : Nat
  forwarded : Bool
  armed : Option Timer

/-- Go `func (s *sampler) Check(ent Entry, ce *CheckedEntry) *CheckedEntry`:

```
if !s.Enabled(ent.Level) { return ce }
if n := s.counts.Inc(ent.Message); n > s.first {
    if n == s.first+1 { time.AfterFunc(s.tick, func() { s.counts.Reset(ent.Message) }) }
    if (n-s.first)%s.thereafter != 0 { return ce }
}
return s.Facility.Check(ent, ce)
```

When `s.thereafter = 0` the Go expression `(n-s.first) % s.thereafter`
panics with a division by zero; that branch is modelled as `none` (the
timer possibly armed just before the panic is then not reported). -/
def Sampler.check (s : Sampler) (ent : Entry) (ce : Nat) : Option CheckOut :=
  if s.fac.enabled ent.level then
    let r := s.counts.Inc ent.message
    let s2 : Sampler := { s with counts := r.1 }
    if s.first < r.2 then
      let t : Option Timer :=
        if r.2 = s.first + 1 then some ⟨s.tick, ent.message⟩ else none
      if s.thereafter = 0 then
        none
      else if (r.2 - s.first) % s.thereafter ≠ 0 then
        some ⟨s2, ce, false, t⟩
      else
        some ⟨s2, s.fac.check ent ce, true, t⟩
    else
      some ⟨s2, s.fac.check ent ce, true, none⟩
  else
    some ⟨s, ce, false, none⟩

/-- The forwarding decision of the spec (§4.4 / §8) as a function of the
post-increment count `n`: forward iff `n ≤ first` or
`(n - first) mod thereafter = 0`. -/
def forwardsAt (first thereafter n : Nat) : Bool :=
  decide (n ≤ first) || decide ((n - first) % thereafter = 0)

/-- Run `n` consecutive `Check` calls for the same entry (the same message,
no intervening reset), collecting the forwarded flag of each call in
order; `none` if any call panics. -/
def runChecks : Sampler → Entry → Nat → Nat → Option (Sampler × List Bool)
  | s, _, _, 0 => some (s, [])
  | s, ent, ce, n + 1 =>
    match s.check ent ce with
    | none => none
    | some o =>
      match runChecks o.sampler ent ce n with
      | none => none
      | some (s2, flags) => some (s2, o.forwarded :: flags)

/-- An event in the life of one sampled message: a `Check` call for it
(`chk`), or the firing of an armed reset timer for it (`fire`, executing
the callback `s.counts.Reset(ent.Message)`). -/
inductive SEvt where
  | chk : SEvt
  | fire : SEvt
deriving DecidableEq

/-- Run a list of events for one entry, collecting for each event whether
a reset timer was armed by it (`fire` events arm nothing); `none` if a
call panics or a timer fires for a key the counters map has never seen. -/
def runEvts : Sampler → Entry → Nat → List SEvt → Option (Sampler × List Bool)
  | s, _, _, [] => some (s, [])
  | s, ent, ce, SEvt.chk :: rest =>
    match s.check ent ce with
    | none => none
    | some o =>
      match runEvts o.sampler ent ce rest with
      | none => none
      | some (s2, arms) => some (s2, o.armed.isSome :: arms)
  | s, ent, ce, SEvt.fire :: rest =>
    match s.counts.Reset ent.message with
    | none => none
    | some c =>
      match runEvts { s with counts := c } ent ce rest with
      | none => none
      | some (s2, arms) => some (s2, false :: arms)

/-! ### Counter operation sequences (for the exact/sharded comparison) -/

/-- One operation against a counter implementation. -/
inductive CtrOp where
  | inc : Key → CtrOp
  | reset : Key → CtrOp
deriving DecidableEq

/-- The key an operation addresses. -/
def CtrOp.key : CtrOp → Key
  | CtrOp.inc k => k
  | CtrOp.reset k => k

/-- The keys addressed by a sequence of operations. -/
def keysOf (ops : List CtrOp) : List Key :=
  ops.map CtrOp.key

/-- No two distinct keys of the sequence share a hash slot. -/
def noCollide (ops : List CtrOp) : Prop :=
  ∀ k1 ∈ keysOf ops, ∀ k2 ∈ keysOf ops, Counters2.hash k1 = Counters2.hash k2 → k1 = k2

instance (ops : List CtrOp) : Decidable (noCollide ops) := by
  unfold noCollide
  infer_instance

/-- Run a sequence against the exact counters, collecting the values the
`Inc` calls return; `none` if a `Reset` panics. -/
def Counters.run : Counters → List CtrOp → Option (Counters × List Nat)
  | c, [] => some (c, [])
  | c, CtrOp.inc k :: rest =>
    match Counters.run (c.Inc k).1 rest with
    | none => none
    | some q => some (q.1, (c.Inc k).2 :: q.2)
  | c, CtrOp.reset k :: rest =>
    match c.Reset k with
    | none => none
    | some c3 => Counters.run c3 rest

/-- Run a sequence against the sharded counters, collecting the values the
`Inc` calls return (all sharded operations are total). -/
def Counters2.run : Counters2 → List CtrOp → Counters2 × List Nat
  | c, [] => (c, [])
  | c, CtrOp.inc k :: rest =>
    let q := Counters2.run (c.Inc k).1 rest
    (q.1, (c.Inc k).2 :: q.2)
  | c, CtrOp.reset k :: rest => Counters2.run (c.Reset k) rest

/-! ### Spec-side reference definitions (§4.1) -/

/-- Modelled from the spec, §4.1 step 1 (fold): one step of accumulating a
byte into the 64-bit ring state, `n = (n & 0xff) >> 56 | (n << 8)` then
XOR in the current byte. -/
def specFoldStep (n b : Nat) : Nat :=
  (((n &&& 0xff) >>> 56) ||| ((n <<< 8) % U64)) ^^^ (b % 256)

/-- Modelled from the spec, §4.1 step 1: process the bytes left to right
from a zero state. -/
def specFold : Nat → Key → Nat
  | n, [] => n
  | n, b :: rest => specFold (specFoldStep n b) rest

/-- Modelled from the spec, §4.1 step 2 (permute, XSH-RR):
`xorshifted = uint32(((n >> 18) ^ n) >> 27)`, `rot = uint32(n >> 59)`,
output `(xorshifted >> rot) | (xorshifted << ((-rot) & 31))`. -/
def specPermute (n : Nat) : Nat :=
  let xorshifted := (((n >>> 18) ^^^ n) >>> 27) % U32
  let rot := (n >>> 59) % U32
  (xorshifted >>> rot) ||| ((xorshifted <<< (((U32 - rot) % U32) &&& 31)) % U32)

/-- Modelled from the spec, §4.1 step 3 (place): the reference slot index,
`permuted_output mod W` with `W = 8192`. -/
def specHash (key : Key) : Nat :=
  specPermute (specFold 0 key) % counters2Width

/-! ### The counter implementation a constructed sampler uses -/

/-- The two counter implementations present in the source file. -/
inductive CounterImpl where
  | exact : CounterImpl
  | sharded : CounterImpl
deriving DecidableEq

/-- Which counter implementation the sampler built by `Sample` uses, as a
function of the construction arguments: the body of `Sample` calls
`newCounters()` (the exact, map-based `counters`) unconditionally;
`counters2` is not referenced by `Sample` for any argument (the source
marks it `TODO: replace counters with counters2 once proven`). -/
def sampleCounterImpl (_fac : Facility) (_tick _first _thereafter : Int) : CounterImpl :=
  CounterImpl.exact

/-! ### Concrete values used by witnesses and counterexamples -/

/-- A concrete wrapped facility: levels `≥ 0` are enabled, and its `Check`
increments the accumulator token so a forwarded call is observable. -/
def boolFac : Facility :=
  ⟨fun l => decide (0 ≤ l), fun _ ce => ce + 1⟩

/-- The bytes of the message string used in the spec's scenarios. -/
def fooKey : Key := [102, 111, 111]

/-- The bytes of a second message string; it shares hash slot 0 with
`fooKey` (every string whose fold is below `2 ^ 27` maps to slot 0). -/
def barKey : Key := [98, 97, 114]

/-- The bytes of a longer message string hashing to slot 7917. -/
def fooLong : Key := [102, 111, 111, 49, 50, 51, 52, 53]

/-- The bytes of a longer message string hashing to slot 725. -/
def barLong : Key := [98, 97, 114, 54, 55, 56, 57, 48]

/-- A concrete operation sequence touching two keys whose hash slots
differ. -/
def opsW : List CtrOp :=
  [CtrOp.inc fooLong, CtrOp.inc barLong, CtrOp.inc fooLong,
   CtrOp.reset fooLong, CtrOp.inc fooLong]

/-- The sampler Sample(boolFac, 1, 0, 2) after one Check of "foo": count
1, which crossed first = 0 and armed a timer. -/
def c8s1 : Sampler :=
  { Sample boolFac 1 0 2 with counts := (⟨[(fooKey, 1)]⟩ : Counters) }

/-- The outcome of that first Check: dropped ((1 - 0) mod 2 = 1), timer
armed with delay tick = 1 for the message. -/
def c8o1 : CheckOut := ⟨c8s1, 0, false, some ⟨1, fooKey⟩⟩

/-- The sampler after two further checks (counts 2 and 3, no timer). -/
def c8s2 : Sampler :=
  { Sample boolFac 1 0 2 with counts := (⟨[(fooKey, 3)]⟩ : Counters) }

/-- The outcome of the next Check from count 3: count 4 forwards
((4 - 0) mod 2 = 0) and arms nothing. -/
def c8o2 : CheckOut :=
  ⟨{ Sample boolFac 1 0 2 with counts := (⟨[(fooKey, 4)]⟩ : Counters) },
    boolFac.check ⟨fooKey, 0⟩ 0, true, none⟩

/-! ### Lemmas: the exact counters -/

theorem lookupKey_updateAssoc_self (l : List (Key × Nat)) (k : Key) (v : Nat) :
    lookupKey (updateAssoc l k v) k = some v := by
  induction l with
  | nil => simp [updateAssoc, lookupKey]
  | cons p rest ih =>
    obtain ⟨k', v'⟩ := p
    by_cases h : k' = k
    · subst h
      simp [updateAssoc, lookupKey]
    · simp [updateAssoc, lookupKey, h, ih]

theorem lookupKey_updateAssoc_ne (l : List (Key × Nat)) (k k' : Key) (v : Nat)
    (h : k' ≠ k) : lookupKey (updateAssoc l k v) k' = lookupKey l k' := by
  have h2 : k ≠ k' := Ne.symm h
  induction l with
  | nil => simp [updateAssoc, lookupKey, h2]
  | cons p rest ih =>
    obtain ⟨k0, v0⟩ := p
    by_cases h0 : k0 = k
    · subst h0
      simp [updateAssoc, lookupKey, h2]
    · simp only [updateAssoc, if_neg h0, lookupKey]
      by_cases h1 : k0 = k'
      · simp [h1]
      · simp [h1, ih]

theorem exactInc_snd (c : Counters) (k : Key) :
    (c.Inc k).2 = (countOf c k + 1) % U64 := by
  unfold Counters.Inc countOf
  cases h : lookupKey c.counts k with
  | none =>
    have h1 : (1 : Nat) % U64 = 1 := Nat.mod_eq_of_lt (by norm_num [U64])
    simp [h, h1]
  | some n => simp [h]

theorem countOf_Inc_self (c : Counters) (k : Key) :
    countOf (c.Inc k).1 k = (countOf c k + 1) % U64 := by
  unfold Counters.Inc countOf
  cases h : lookupKey c.counts k with
  | none =>
    have h1 : (1 : Nat) % U64 = 1 := Nat.mod_eq_of_lt (by norm_num [U64])
    simp [h, h1, lookupKey_updateAssoc_self]
  | some n => simp [h, lookupKey_updateAssoc_self]

theorem countOf_Inc_ne (c : Counters) (k k' : Key) (h : k' ≠ k) :
    countOf (c.Inc k).1 k' = countOf c k' := by
  unfold Counters.Inc countOf
  cases h0 : lookupKey c.counts k with
  | none => simp [lookupKey_updateAssoc_ne _ _ _ _ h]
  | some n => simp [lookupKey_updateAssoc_ne _ _ _ _ h]

theorem lookupKey_Inc_self (c : Counters) (k : Key) :
    (lookupKey (c.Inc k).1.counts k).isSome = true := by
  unfold Counters.Inc
  cases h : lookupKey c.counts k with
  | none => simp [lookupKey_updateAssoc_self]
  | some n => simp [lookupKey_updateAssoc_self]

theorem countOf_Reset_self (c c' : Counters) (k : Key)
    (h : c.Reset k = some c') : countOf c' k = 0 := by
  unfold Counters.Reset at h
  cases h0 : lookupKey c.counts k with
  | none => simp [h0] at h
  | some n =>
    simp only [h0] at h
    cases h
    simp [countOf, lookupKey_updateAssoc_self]

theorem countOf_Reset_ne (c c' : Counters) (k k' : Key)
    (h : c.Reset k = some c') (hne : k' ≠ k) : countOf c' k' = countOf c k' := by
  unfold Counters.Reset at h
  cases h0 : lookupKey c.counts k with
  | none => simp [h0] at h
  | some n =>
    simp only [h0] at h
    cases h
    simp [countOf, lookupKey_updateAssoc_ne _ _ _ _ hne]

theorem Counters.Reset_isSome (c : Counters) (k : Key) :
    (c.Reset k).isSome = (lookupKey c.counts k).isSome := by
  unfold Counters.Reset
  cases h : lookupKey c.counts k <;> simp

/-! ### Lemmas: the sharded counters -/

theorem and_mask_eq_mod (i : Nat) : i &&& counters2BucketMask = i % counters2PerLock := by
  have h := Nat.and_pow_two_sub_one_eq_mod i 3
  norm_num at h
  simpa [counters2BucketMask, counters2PerLock] using h

theorem slot_eq_of_parts (i j : Nat)
    (h1 : i / counters2PerLock = j / counters2PerLock)
    (h2 : i &&& counters2BucketMask = j &&& counters2BucketMask) : i = j := by
  rw [and_mask_eq_mod, and_mask_eq_mod] at h2
  simp only [counters2PerLock] at h1 h2
  omega

theorem shardedInc_snd (c : Counters2) (k : Key) :
    (c.Inc k).2 = (c.read k + 1) % U64 := by
  simp [Counters2.Inc, Bucket2.inc, Counters2.read]

theorem Counters2.read_Inc_self (c : Counters2) (k : Key) :
    (c.Inc k).1.read k = (c.read k + 1) % U64 := by
  simp [Counters2.Inc, Bucket2.inc, Counters2.read, Function.update_same]

theorem Counters2.read_Inc_hashEq (c : Counters2) (k k' : Key)
    (h : Counters2.hash k' = Counters2.hash k) :
    (c.Inc k).1.read k' = (c.read k' + 1) % U64 := by
  simp [Counters2.Inc, Bucket2.inc, Counters2.read, h, Function.update_same]

theorem Counters2.read_Inc_ne (c : Counters2) (k k' : Key)
    (h : Counters2.hash k' ≠ Counters2.hash k) :
    (c.Inc k).1.read k' = c.read k' := by
  unfold Counters2.Inc Counters2.read Bucket2.inc
  simp only []
  by_cases hb :
      Counters2.hash k' / counters2PerLock = Counters2.hash k / counters2PerLock
  · have hs : Counters2.hash k' &&& counters2BucketMask ≠
        Counters2.hash k &&& counters2BucketMask := by
      intro he
      exact h (slot_eq_of_parts _ _ hb he)
    rw [hb, Function.update_same]
    exact Function.update_noteq hs _ _
  · rw [Function.update_noteq hb]

theorem Counters2.read_Reset_self (c : Counters2) (k : Key) :
    (c.Reset k).read k = 0 := by
  simp [Counters2.Reset, Bucket2.reset, Counters2.read, Function.update_same]

theorem Counters2.read_Reset_ne (c : Counters2) (k k' : Key)
    (h : Counters2.hash k' ≠ Counters2.hash k) :
    (c.Reset k).read k' = c.read k' := by
  unfold Counters2.Reset Counters2.read Bucket2.reset
  simp only []
  by_cases hb :
      Counters2.hash k' / counters2PerLock = Counters2.hash k / counters2PerLock
  · have hs : Counters2.hash k' &&& counters2BucketMask ≠
        Counters2.hash k &&& counters2BucketMask := by
      intro he
      exact h (slot_eq_of_parts _ _ hb he)
    rw [hb, Function.update_same]
    exact Function.update_noteq hs _ _
  · rw [Function.update_noteq hb]

/-! ### Lemmas: one Check call -/

theorem U64_pos : 0 < U64 := by norm_num [U64]

theorem check_disabled (s : Sampler) (ent : Entry) (ce : Nat)
    (h : s.fac.enabled ent.level = false) :
    s.check ent ce = some ⟨s, ce, false, none⟩ := by
  simp [Sampler.check, h]

theorem check_enabled (s : Sampler) (ent : Entry) (ce : Nat)
    (hen : s.fac.enabled ent.level = true) (hth : 1 ≤ s.thereafter) :
    s.check ent ce = some ⟨{ s with counts := (s.counts.Inc ent.message).1 },
      (if forwardsAt s.first s.thereafter ((countOf s.counts ent.message + 1) % U64)
        then s.fac.check ent ce else ce),
      forwardsAt s.first s.thereafter ((countOf s.counts ent.message + 1) % U64),
      (if (countOf s.counts ent.message + 1) % U64 = s.first + 1
        then some ⟨s.tick, ent.message⟩ else none)⟩ := by
  have hth0 : s.thereafter ≠ 0 := by omega
  unfold Sampler.check
  rw [hen]
  simp only [if_true, exactInc_snd, if_neg hth0]
  by_cases h1 : s.first < (countOf s.counts ent.message + 1) % U64
  · rw [if_pos h1]
    have h2 : ¬ (countOf s.counts ent.message + 1) % U64 ≤ s.first := by omega
    by_cases h3 :
        ((countOf s.counts ent.message + 1) % U64 - s.first) % s.thereafter = 0
    · simp [forwardsAt, h2, h3]
    · simp [forwardsAt, h2, h3]
  · rw [if_neg h1]
    have h2 : (countOf s.counts ent.message + 1) % U64 ≤ s.first := by omega
    have h3 : (countOf s.counts ent.message + 1) % U64 ≠ s.first + 1 := by omega
    simp [forwardsAt, h2, h3]

theorem isSome_ite_timer (c : Prop) [Decidable c] (t : Timer) :
    (if c then some t else none).isSome = decide c := by
  by_cases h : c <;> simp [h]

/-! ### Lemmas: consecutive Check calls -/

theorem runChecks_closed (ent : Entry) (ce : Nat) :
    ∀ (m : Nat) (s : Sampler), s.fac.enabled ent.level = true → 1 ≤ s.thereafter →
    countOf s.counts ent.message < U64 →
    ∃ s2 : Sampler,
      runChecks s ent ce m = some (s2, (List.range m).map (fun i =>
        forwardsAt s.first s.thereafter ((countOf s.counts ent.message + i + 1) % U64))) ∧
      countOf s2.counts ent.message = (countOf s.counts ent.message + m) % U64 ∧
      s2.first = s.first ∧ s2.thereafter = s.thereafter ∧
      s2.fac = s.fac ∧ s2.tick = s.tick := by
  intro m
  induction m with
  | zero =>
    intro s hen hth hc
    exact ⟨s, by simp [runChecks], by rw [Nat.add_zero, Nat.mod_eq_of_lt hc], rfl, rfl, rfl, rfl⟩
  | succ m ih =>
    intro s hen hth hc
    obtain ⟨s2, hrun, hcnt, hfst, hth2, hfac, htick⟩ :=
      ih { s with counts := (s.counts.Inc ent.message).1 } hen hth
        (by dsimp only; rw [countOf_Inc_self]; exact Nat.mod_lt _ U64_pos)
    have hinc : countOf ({ s with counts := (s.counts.Inc ent.message).1 } : Sampler).counts
        ent.message = (countOf s.counts ent.message + 1) % U64 :=
      countOf_Inc_self s.counts ent.message
    refine ⟨s2, ?_, ?_, hfst, hth2, hfac, htick⟩
    · rw [runChecks, check_enabled s ent ce hen hth]
      simp only [hrun, hinc]
      have hl : (List.range (m + 1)).map (fun i =>
            forwardsAt s.first s.thereafter ((countOf s.counts ent.message + i + 1) % U64)) =
          forwardsAt s.first s.thereafter ((countOf s.counts ent.message + 1) % U64) ::
            (List.range m).map (fun i => forwardsAt s.first s.thereafter
              (((countOf s.counts ent.message + 1) % U64 + i + 1) % U64)) := by
        rw [List.range_succ_eq_map, List.map_cons, List.map_map]
        refine congrArg (List.cons _) ?_
        congr 1
        funext i
        simp only [Function.comp_apply]
        congr 1
        conv_rhs => rw [Nat.add_assoc, Nat.mod_add_mod]
        congr 1
        omega
      rw [hl]
    · rw [hcnt, hinc, Nat.mod_add_mod]
      congr 1
      omega

theorem runEvts_chk_closed (ent : Entry) (ce : Nat) :
    ∀ (m : Nat) (s : Sampler), s.fac.enabled ent.level = true → 1 ≤ s.thereafter →
    countOf s.counts ent.message < U64 →
    ∃ s2 : Sampler,
      runEvts s ent ce (List.replicate m SEvt.chk) = some (s2, (List.range m).map (fun i =>
        decide ((countOf s.counts ent.message + i + 1) % U64 = s.first + 1))) ∧
      countOf s2.counts ent.message = (countOf s.counts ent.message + m) % U64 ∧
      s2.first = s.first ∧ s2.thereafter = s.thereafter ∧
      s2.fac = s.fac ∧ s2.tick = s.tick := by
  intro m
  induction m with
  | zero =>
    intro s hen hth hc
    exact ⟨s, by simp [runEvts], by rw [Nat.add_zero, Nat.mod_eq_of_lt hc], rfl, rfl, rfl, rfl⟩
  | succ m ih =>
    intro s hen hth hc
    obtain ⟨s2, hrun, hcnt, hfst, hth2, hfac, htick⟩ :=
      ih { s with counts := (s.counts.Inc ent.message).1 } hen hth
        (by dsimp only; rw [countOf_Inc_self]; exact Nat.mod_lt _ U64_pos)
    have hinc : countOf ({ s with counts := (s.counts.Inc ent.message).1 } : Sampler).counts
        ent.message = (countOf s.counts ent.message + 1) % U64 :=
      countOf_Inc_self s.counts ent.message
    refine ⟨s2, ?_, ?_, hfst, hth2, hfac, htick⟩
    · rw [List.replicate_succ, runEvts, check_enabled s ent ce hen hth]
      simp only [hrun, hinc, isSome_ite_timer]
      have hl : (List.range (m + 1)).map (fun i =>
            decide ((countOf s.counts ent.message + i + 1) % U64 = s.first + 1)) =
          decide ((countOf s.counts ent.message + 1) % U64 = s.first + 1) ::
            (List.range m).map (fun i => decide
              (((countOf s.counts ent.message + 1) % U64 + i + 1) % U64 = s.first + 1)) := by
        rw [List.range_succ_eq_map, List.map_cons, List.map_map]
        refine congrArg (List.cons _) ?_
        congr 1
        funext i
        simp only [Function.comp_apply]
        congr 2
        conv_rhs => rw [Nat.add_assoc, Nat.mod_add_mod]
        congr 1
        omega
      rw [hl]
    · rw [hcnt, hinc, Nat.mod_add_mod]
      congr 1
      omega

theorem add_mod_ne_self (x d m : Nat) (hx : x < m) (hd : 0 < d) (hdm : d < m) :
    (x + d) % m ≠ x := by
  intro h
  rcases Nat.lt_or_ge (x + d) m with hlt | hge
  · rw [Nat.mod_eq_of_lt hlt] at h
    omega
  · have h2 : (x + d) % m = (x + d - m) % m := Nat.mod_eq_sub_mod hge
    have h3 : x + d - m < m := by omega
    rw [h2, Nat.mod_eq_of_lt h3] at h
    omega

/-! ### Lemmas: exact and sharded runs agree without collisions -/

theorem run_agree : ∀ (ops : List CtrOp) (c : Counters) (c2 : Counters2),
    (∀ k1 ∈ keysOf ops, ∀ k2 ∈ keysOf ops, Counters2.hash k1 = Counters2.hash k2 → k1 = k2) →
    (∀ k ∈ keysOf ops, countOf c k = c2.read k) →
    ∀ p, Counters.run c ops = some p → (Counters2.run c2 ops).2 = p.2 := by
  intro ops
  induction ops with
  | nil =>
    intro c c2 _ _ p hp
    simp only [Counters.run, Option.some.injEq] at hp
    rw [← hp]
    rfl
  | cons op rest ih =>
    intro c c2 hnc hinv p hp
    have hmem : op.key ∈ keysOf (op :: rest) := by
      simp [keysOf]
    have hsub : ∀ k ∈ keysOf rest, k ∈ keysOf (op :: rest) := by
      intro k hk
      simp only [keysOf, List.map_cons, List.mem_cons]
      right
      simpa [keysOf] using hk
    cases op with
    | inc k =>
      rw [Counters.run] at hp
      cases hq : Counters.run (c.Inc k).1 rest with
      | none => rw [hq] at hp; cases hp
      | some q =>
        rw [hq] at hp
        simp only [Option.some.injEq] at hp
        have hk : k ∈ keysOf (CtrOp.inc k :: rest) := hmem
        have hinv2 : ∀ k' ∈ keysOf rest, countOf (c.Inc k).1 k' = (c2.Inc k).1.read k' := by
          intro k' hk'
          by_cases he : k' = k
          · subst he
            rw [countOf_Inc_self, Counters2.read_Inc_self, hinv k' hk]
          · have hh : Counters2.hash k' ≠ Counters2.hash k := by
              intro hhe
              exact he (hnc k' (hsub k' hk') k hk hhe)
            rw [countOf_Inc_ne _ _ _ he, Counters2.read_Inc_ne _ _ _ hh]
            exact hinv k' (hsub k' hk')
        have hnc2 : ∀ k1 ∈ keysOf rest, ∀ k2 ∈ keysOf rest,
            Counters2.hash k1 = Counters2.hash k2 → k1 = k2 := by
          intro k1 h1 k2 h2 hh
          exact hnc k1 (hsub k1 h1) k2 (hsub k2 h2) hh
        have htail := ih (c.Inc k).1 (c2.Inc k).1 hnc2 hinv2 q hq
        rw [Counters2.run]
        rw [← hp]
        dsimp only
        rw [htail]
        refine congrArg (fun x => x :: q.2) ?_
        rw [exactInc_snd, shardedInc_snd, hinv k hk]
    | reset k =>
      rw [Counters.run] at hp
      cases hr : c.Reset k with
      | none => rw [hr] at hp; cases hp
      | some c3 =>
        rw [hr] at hp
        have hk : k ∈ keysOf (CtrOp.reset k :: rest) := hmem
        have hinv2 : ∀ k' ∈ keysOf rest, countOf c3 k' = (c2.Reset k).read k' := by
          intro k' hk'
          by_cases he : k' = k
          · subst he
            rw [countOf_Reset_self c c3 k' hr, Counters2.read_Reset_self]
          · have hh : Counters2.hash k' ≠ Counters2.hash k := by
              intro hhe
              exact he (hnc k' (hsub k' hk') k hk hhe)
            rw [countOf_Reset_ne c c3 k k' hr he, Counters2.read_Reset_ne _ _ _ hh]
            exact hinv k' (hsub k' hk')
        have hnc2 : ∀ k1 ∈ keysOf rest, ∀ k2 ∈ keysOf rest,
            Counters2.hash k1 = Counters2.hash k2 → k1 = k2 := by
          intro k1 h1 k2 h2 hh
          exact hnc k1 (hsub k1 h1) k2 (hsub k2 h2) hh
        rw [Counters2.run]
        exact ih c3 (c2.Reset k) hnc2 hinv2 p hp

/-! ### Lemmas: the spec-side hash agrees with the source hash -/

theorem foldl_eq_specFold : ∀ (s : Key) (n : Nat),
    List.foldl (fun n b => (((n &&& 0xff) >>> 56) ||| ((n <<< 8) % U64)) ^^^ (b % 256)) n s =
      specFold n s := by
  intro s
  induction s with
  | nil => intro n; rfl
  | cons b rest ih => intro n; exact ih (specFoldStep n b)

theorem xorstring_eq_specFold (s : Key) : xorstring s = specFold 0 s :=
  foldl_eq_specFold s 0

theorem xshrr_eq_specPermute (n : Nat) : xshrr n = specPermute n := rfl

/-! ### Claim C4 -/

/-- C4: for every key string the sharded counter's slot index equals the
spec's §4.1 reference algorithm exactly (fold the bytes into a 64-bit
state, permute with XSH-RR, take the result modulo W), and the hash is a
pure deterministic function — equal keys always produce equal slot
indices. -/
theorem c4_hash_matches_spec :
    (∀ key : Key, Counters2.hash key = specHash key) ∧
    (∀ k1 k2 : Key, k1 = k2 → Counters2.hash k1 = Counters2.hash k2) := by
  constructor
  · intro key
    unfold Counters2.hash specHash
    rw [xorstring_eq_specFold, xshrr_eq_specPermute]
  · intro k1 k2 h
    rw [h]

/-- C4 witness: the theorem applied at the concrete key "foo". -/
theorem c4_witness :
    fooKey = fooKey ∧ Counters2.hash fooKey = Counters2.hash fooKey ∧
    Counters2.hash fooKey = specHash fooKey :=
  ⟨rfl, c4_hash_matches_spec.2 fooKey fooKey rfl, c4_hash_matches_spec.1 fooKey⟩

/-! ### Claim C6 -/

/-- C6 (the code bug): in the fold step the term `(n & 0xff) >> 56` is
identically zero, so the update is a plain left shift that discards the
high byte of `n` instead of rotating it — contradicting the function's
own comment (a 64-bit ring that gets rotated) and the claim that every
byte influences the folded state: the 9-byte strings "a00000000" and
"b00000000", which differ in their first byte, fold to the same value. -/
theorem c6_fold_discards_high_byte :
    (∀ n : Nat, (n &&& 0xff) >>> 56 = 0) ∧
    xorstring (97 :: [48, 48, 48, 48, 48, 48, 48, 48]) =
      xorstring (98 :: [48, 48, 48, 48, 48, 48, 48, 48]) ∧
    List.get? (97 :: [48, 48, 48, 48, 48, 48, 48, 48]) 0 = some 97 ∧
    List.get? (98 :: [48, 48, 48, 48, 48, 48, 48, 48]) 0 = some 98 := by
  refine ⟨?_, by decide, rfl, rfl⟩
  intro n
  have h1 : n &&& 0xff ≤ 0xff := Nat.and_le_right
  rw [Nat.shiftRight_eq_div_pow]
  exact Nat.div_eq_of_lt (lt_of_le_of_lt h1 (by norm_num))

/-! ### Claim C7 -/

/-- C7 theorem (amended): the construction entry point wires in the exact
map-based counters for every construction argument; the sharded
counters2 exists in the source but is not selectable through Sample. -/
theorem c7_sample_always_exact : ∀ (fac : Facility) (tick first thereafter : Int),
    sampleCounterImpl fac tick first thereafter = CounterImpl.exact ∧
    (Sample fac tick first thereafter).counts = Counters.new :=
  fun _ _ _ _ => ⟨rfl, rfl⟩

/-- C7 counterexample: there is no construction argument for which the
sampler produced by Sample uses the sharded counter implementation. -/
theorem c7_counterexample :
    (∃ (fac : Facility) (tick first thereafter : Int),
      sampleCounterImpl fac tick first thereafter = CounterImpl.sharded) = False := by
  apply eq_false
  rintro ⟨fac, tick, first, thereafter, h⟩
  exact CounterImpl.noConfusion h

/-! ### Claim C9 -/

/-- C9: for an entry whose level the wrapped capability reports not
enabled, Check returns the accumulator unchanged, does not forward, arms
no timer, and leaves the sampler state identical — so every key's count
(including the entry's message) is the same before and after the call. -/
theorem c9_disabled_is_frame :
    ∀ (s : Sampler) (ent : Entry) (ce : Nat), s.fac.enabled ent.level = false →
      s.check ent ce = some ⟨s, ce, false, none⟩ ∧
      ∀ o, s.check ent ce = some o → ∀ k, countOf o.sampler.counts k = countOf s.counts k := by
  intro s ent ce h
  refine ⟨check_disabled s ent ce h, ?_⟩
  intro o ho k
  rw [check_disabled s ent ce h] at ho
  cases ho
  rfl

/-- C9 witness: the theorem applied to a concrete sampler and an entry at
the disabled level -1. -/
theorem c9_witness :
    (Sample boolFac 1 1 3).fac.enabled (⟨fooKey, -1⟩ : Entry).level = false ∧
    (Sample boolFac 1 1 3).check ⟨fooKey, -1⟩ 5 =
      some ⟨Sample boolFac 1 1 3, 5, false, none⟩ :=
  ⟨by decide, (c9_disabled_is_frame (Sample boolFac 1 1 3) ⟨fooKey, -1⟩ 5 (by decide)).1⟩

/-! ### Claim C2 -/

/-- C2 counterexample: Sample called with thereafter = 0 does not fault —
it returns a sampler whose thereafter field is 0 over a fresh counters
map — and the very first enabled Check for that sampler faults (Go's
modulo by zero): the failure is deferred to the first throttled Check,
contrary to the claim. -/
theorem c2_counterexample :
    (Sample boolFac 1 0 0).thereafter = 0 ∧
    (Sample boolFac 1 0 0).counts = Counters.new ∧
    (Sample boolFac 1 0 0).check ⟨fooKey, 0⟩ 0 = none :=
  ⟨rfl, rfl, rfl⟩

/-- C2 theorem (amended): Sample performs no construction-time validation —
for every argument, including thereafter = 0, it returns a sampler whose
fields are the uint64-converted arguments and a fresh counters map — and
with thereafter = 0 the fault occurs at exactly the first Check whose
incremented count exceeds first; Check calls within the burst allowance
and disabled-level calls do not fault. -/
theorem c2_fault_deferred_to_check :
    (∀ (fac : Facility) (tick first thereafter : Int),
      (Sample fac tick first thereafter).first = uint64OfInt first ∧
      (Sample fac tick first thereafter).thereafter = uint64OfInt thereafter ∧
      (Sample fac tick first thereafter).counts = Counters.new) ∧
    (∀ (s : Sampler) (ent : Entry) (ce : Nat), s.thereafter = 0 →
      s.fac.enabled ent.level = true →
      (s.check ent ce = none ↔ s.first < (countOf s.counts ent.message + 1) % U64)) ∧
    (∀ (s : Sampler) (ent : Entry) (ce : Nat), s.fac.enabled ent.level = false →
      (s.check ent ce).isSome = true) := by
  refine ⟨fun _ _ _ _ => ⟨rfl, rfl, rfl⟩, ?_, ?_⟩
  · intro s ent ce hth hen
    unfold Sampler.check
    rw [hen]
    simp only [if_true, exactInc_snd, hth]
    by_cases h1 : s.first < (countOf s.counts ent.message + 1) % U64
    · simp [h1]
    · simp [h1]
  · intro s ent ce h
    rw [check_disabled s ent ce h]
    rfl

/-- C2 witness: the amended theorem applied to the concrete sampler built
with first = 2 and thereafter = 0 at an enabled level. -/
theorem c2_witness :
    (Sample boolFac 1 2 0).thereafter = 0 ∧
    (Sample boolFac 1 2 0).fac.enabled (⟨fooKey, 0⟩ : Entry).level = true ∧
    ((Sample boolFac 1 2 0).check ⟨fooKey, 0⟩ 0 = none ↔
      (Sample boolFac 1 2 0).first <
        (countOf (Sample boolFac 1 2 0).counts (⟨fooKey, 0⟩ : Entry).message + 1) % U64) :=
  ⟨by decide, by decide,
    c2_fault_deferred_to_check.2.1 (Sample boolFac 1 2 0) ⟨fooKey, 0⟩ 0 (by decide) (by decide)⟩

/-! ### Claim C3 -/

/-- C3 counterexample: Reset on the exact counters for a key that has
never been passed to Inc faults (the map lookup yields a nil pointer and
Store dereferences it) — it is neither a no-op nor create-at-zero. -/
theorem c3_counterexample : Counters.Reset Counters.new fooKey = none := rfl

/-- C3 theorem (amended): Inc is total, Check is total whenever
thereafter ≥ 1 (any level, any message, any accumulator), and Reset
succeeds exactly on keys the map has already seen — in particular Reset
right after an Inc of the same key always succeeds, which is the only way
the sampler's timers invoke it — but Reset of a never-incremented key
faults. -/
theorem c3_runtime_totality :
    (∀ (c : Counters) (k : Key), (c.Reset k).isSome = (lookupKey c.counts k).isSome) ∧
    (∀ (c : Counters) (k : Key), ((c.Inc k).1.Reset k).isSome = true) ∧
    (∀ (s : Sampler) (ent : Entry) (ce : Nat), 1 ≤ s.thereafter →
      (s.check ent ce).isSome = true) := by
  refine ⟨Counters.Reset_isSome, ?_, ?_⟩
  · intro c k
    rw [Counters.Reset_isSome]
    exact lookupKey_Inc_self c k
  · intro s ent ce hth
    by_cases hen : s.fac.enabled ent.level = true
    · rw [check_enabled s ent ce hen hth]
      rfl
    · rw [check_disabled s ent ce (by simpa using hen)]
      rfl

/-- C3 witness: totality of Check applied to a concrete sampler with
thereafter = 3. -/
theorem c3_witness :
    1 ≤ (Sample boolFac 1 1 3).thereafter ∧
    ((Sample boolFac 1 1 3).check ⟨fooKey, 0⟩ 0).isSome = true :=
  ⟨by decide, c3_runtime_totality.2.2 (Sample boolFac 1 1 3) ⟨fooKey, 0⟩ 0 (by decide)⟩

/-! ### Claim C10 -/

/-- C10: Sample converts its signed first and thereafter arguments to
uint64 with no range check, so a negative argument wraps modulo 2^64:
thereafter = -1 yields a cadence divisor of 2^64 - 1, first = -1 yields a
burst allowance of 2^64 - 1, and a sampler whose first is 2^64 - 1
forwards every enabled Check (the wrapping count never exceeds it) and
never arms a timer. -/
theorem c10_negative_args_wrap :
    (∀ (fac : Facility) (tick first thereafter : Int),
      (Sample fac tick first thereafter).first = uint64OfInt first ∧
      (Sample fac tick first thereafter).thereafter = uint64OfInt thereafter) ∧
    uint64OfInt (-1) = U64 - 1 ∧
    (∀ (s : Sampler) (ent : Entry) (ce : Nat), s.first = U64 - 1 →
      s.fac.enabled ent.level = true →
      s.check ent ce = some ⟨{ s with counts := (s.counts.Inc ent.message).1 },
        s.fac.check ent ce, true, none⟩) := by
  refine ⟨fun _ _ _ _ => ⟨rfl, rfl⟩, by decide, ?_⟩
  intro s ent ce hf hen
  unfold Sampler.check
  rw [hen]
  simp only [if_true, exactInc_snd]
  have hlt : (countOf s.counts ent.message + 1) % U64 < U64 := Nat.mod_lt _ U64_pos
  have h1 : ¬ s.first < (countOf s.counts ent.message + 1) % U64 := by
    rw [hf]
    omega
  rw [if_neg h1]

/-- C10 witness: the theorem applied to the sampler built with
first = -1 (and thereafter = 0, which is irrelevant because no call is
ever throttled). -/
theorem c10_witness :
    (Sample boolFac 1 (-1) 0).first = U64 - 1 ∧
    (Sample boolFac 1 (-1) 0).fac.enabled (⟨fooKey, 0⟩ : Entry).level = true ∧
    (Sample boolFac 1 (-1) 0).check ⟨fooKey, 0⟩ 7 =
      some ⟨{ Sample boolFac 1 (-1) 0 with
          counts := ((Sample boolFac 1 (-1) 0).counts.Inc (⟨fooKey, 0⟩ : Entry).message).1 },
        (Sample boolFac 1 (-1) 0).fac.check ⟨fooKey, 0⟩ 7, true, none⟩ :=
  ⟨by decide, by decide,
    c10_negative_args_wrap.2.2 (Sample boolFac 1 (-1) 0) ⟨fooKey, 0⟩ 7 (by decide) (by decide)⟩

/-! ### Claim C5 -/

/-- C5: on the sharded counter, Inc(key) returns the post-increment value
of the single slot addressed by hash(key), and stores it there; two keys
whose hashes select the same slot merge their increments into one
observed count (incrementing either bumps the count the other observes);
and for any sequence of Inc/Reset operations from fresh counters in which
no two distinct keys collide, the sharded counter returns the same counts
as the exact counter whenever the exact run completes. -/
theorem c5_sharded_refinement :
    (∀ (c : Counters2) (k : Key),
      (c.Inc k).2 = (c.read k + 1) % U64 ∧ (c.Inc k).1.read k = (c.read k + 1) % U64) ∧
    (∀ (c : Counters2) (k1 k2 : Key), Counters2.hash k1 = Counters2.hash k2 →
      (c.Inc k2).1.read k1 = (c.read k1 + 1) % U64 ∧
      (c.Inc k2).2 = (c.read k1 + 1) % U64) ∧
    (∀ (ops : List CtrOp), noCollide ops →
      ∀ p, Counters.run Counters.new ops = some p →
        (Counters2.run Counters2.new ops).2 = p.2) := by
  refine ⟨fun c k => ⟨shardedInc_snd c k, Counters2.read_Inc_self c k⟩, ?_, ?_⟩
  · intro c k1 k2 h
    have hr : c.read k2 = c.read k1 := by
      unfold Counters2.read
      rw [h]
    refine ⟨Counters2.read_Inc_hashEq c k2 k1 h, ?_⟩
    rw [shardedInc_snd, hr]
  · intro ops hnc p hp
    refine run_agree ops Counters.new Counters2.new hnc ?_ p hp
    intro k _
    rfl

/-- C5 witness: the no-collision refinement applied to the concrete
sequence opsW over the keys fooLong (slot 7917) and barLong (slot 725),
and the slot-merge facts applied to the genuinely colliding pair
fooKey/barKey (both land in slot 0). -/
theorem c5_witness :
    noCollide opsW ∧
    Counters.run Counters.new opsW =
      some ((⟨[(fooLong, 1), (barLong, 1)]⟩ : Counters), [1, 1, 2, 1]) ∧
    (Counters2.run Counters2.new opsW).2 = [1, 1, 2, 1] ∧
    Counters2.hash fooKey = Counters2.hash barKey ∧
    (Counters2.new.Inc barKey).1.read fooKey = (Counters2.new.read fooKey + 1) % U64 :=
  ⟨by decide, rfl,
    c5_sharded_refinement.2.2 opsW (by decide)
      ((⟨[(fooLong, 1), (barLong, 1)]⟩ : Counters), [1, 1, 2, 1]) rfl,
    by decide,
    (c5_sharded_refinement.2.1 Counters2.new fooKey barKey (by decide)).1⟩

/-! ### Claim C1 -/

/-- C1 theorem (amended): for every sampler with thereafter ≥ 1, every
message starting at count 0, and a level the wrapped capability reports
enabled, the nth consecutive Check call with no intervening reset
(1 ≤ n < 2^64) forwards iff n ≤ first or (n - first) mod thereafter = 0;
and with first = 1, thereafter = 3, ten successive Check calls forward
exactly on calls 1, 4, 7, 10.  (For n ≥ 2^64 the wrapping uint64 count
makes the code decide by n mod 2^64 instead of n — see the
counterexample.) -/
theorem c1_decision_formula :
    (∀ (s : Sampler) (msg : Key) (lvl : Int) (ce n : Nat),
      s.fac.enabled lvl = true → 1 ≤ s.thereafter → countOf s.counts msg = 0 →
      1 ≤ n → n < U64 →
      (runChecks s ⟨msg, lvl⟩ ce n).map (fun p => p.2.get? (n - 1)) =
        some (some (forwardsAt s.first s.thereafter n))) ∧
    (∀ (s : Sampler) (msg : Key) (lvl : Int) (ce : Nat),
      s.fac.enabled lvl = true → s.first = 1 → s.thereafter = 3 →
      countOf s.counts msg = 0 →
      (runChecks s ⟨msg, lvl⟩ ce 10).map (fun p => p.2) =
        some [true, false, false, true, false, false, true, false, false, true]) := by
  constructor
  · intro s msg lvl ce n hen hth hc0 hn1 hnU
    have hmsg : countOf s.counts (⟨msg, lvl⟩ : Entry).message = 0 := hc0
    obtain ⟨s2, hrun, -, -, -, -, -⟩ :=
      runChecks_closed ⟨msg, lvl⟩ ce n s hen hth (by rw [hmsg]; exact U64_pos)
    rw [hrun]
    simp only [Option.map_some']
    have hidx : n - 1 < n := by omega
    rw [List.get?_map, List.get?_range hidx]
    simp only [Option.map_some']
    refine congrArg some (congrArg some ?_)
    rw [hmsg]
    have h3 : 0 + (n - 1) + 1 = n := by omega
    rw [h3, Nat.mod_eq_of_lt hnU]
  · intro s msg lvl ce hen hf ht hc0
    have hmsg : countOf s.counts (⟨msg, lvl⟩ : Entry).message = 0 := hc0
    obtain ⟨s2, hrun, -, -, -, -, -⟩ :=
      runChecks_closed ⟨msg, lvl⟩ ce 10 s hen (by rw [ht]; norm_num)
        (by rw [hmsg]; exact U64_pos)
    rw [hrun]
    simp only [Option.map_some']
    refine congrArg some ?_
    rw [hmsg, hf, ht]
    decide

/-- C1 witness: the general formula applied at the 4th call of a concrete
sampler built with first = 1, thereafter = 3; the call forwards. -/
theorem c1_witness :
    (Sample boolFac 1 1 3).fac.enabled (0 : Int) = true ∧
    1 ≤ (Sample boolFac 1 1 3).thereafter ∧
    countOf (Sample boolFac 1 1 3).counts fooKey = 0 ∧
    (1 : Nat) ≤ 4 ∧ (4 : Nat) < U64 ∧
    (runChecks (Sample boolFac 1 1 3) ⟨fooKey, 0⟩ 0 4).map (fun p => p.2.get? 3) =
      some (some (forwardsAt (Sample boolFac 1 1 3).first (Sample boolFac 1 1 3).thereafter 4)) :=
  ⟨by decide, by decide, by decide, by decide, by decide,
    c1_decision_formula.1 (Sample boolFac 1 1 3) fooKey 0 0 4 (by decide) (by decide)
      (by decide) (by decide) (by decide)⟩

/-- C1 counterexample: with first = 1, thereafter = 3, an enabled level
and no intervening reset, the claimed formula predicts that call number
2^64 + 3 forwards — (n - first) mod thereafter = 0 — but the code drops
it: the uint64 count has wrapped, so the call is decided like call 3. -/
theorem c1_counterexample :
    (U64 + 3 - 1) % 3 = 0 ∧
    (runChecks (Sample boolFac 1 1 3) ⟨fooKey, 0⟩ 0 (U64 + 3)).map
      (fun p => p.2.get? (U64 + 3 - 1)) = some (some false) := by
  constructor
  · decide
  · obtain ⟨s2, hrun, -, -, -, -, -⟩ :=
      runChecks_closed ⟨fooKey, 0⟩ 0 (U64 + 3) (Sample boolFac 1 1 3)
        (by decide) (by decide) (by decide)
    rw [hrun]
    simp only [Option.map_some']
    have hidx : U64 + 3 - 1 < U64 + 3 := by omega
    rw [List.get?_map, List.get?_range hidx]
    simp only [Option.map_some']
    refine congrArg some (congrArg some ?_)
    have h3 : countOf (Sample boolFac 1 1 3).counts (⟨fooKey, 0⟩ : Entry).message +
        (U64 + 3 - 1) + 1 = U64 + 3 := by
      have h4 : countOf (Sample boolFac 1 1 3).counts (⟨fooKey, 0⟩ : Entry).message = 0 := rfl
      rw [h4]
      omega
    rw [h3]
    have h5 : (U64 + 3) % U64 = 3 := by
      rw [Nat.add_mod_left]
      decide
    rw [h5]
    decide

/-! ### Claim C8 -/

/-- C8 theorem (amended): a reset timer is armed by a Check call exactly
when the level is enabled and the incremented count equals first + 1, and
the armed timer carries the sampler's tick and the entry's message; the
timer's firing (the Reset callback) zeroes that key's count; and a key
already above the threshold does not arm another timer until it has been
reset, provided fewer than 2^64 - 1 checks intervene.  (After exactly
2^64 further checks the wrapping count revisits first + 1 and re-arms
without a reset — see the counterexample.) -/
theorem c8_timer_discipline :
    (∀ (s : Sampler) (ent : Entry) (ce : Nat) (o : CheckOut), 1 ≤ s.thereafter →
      s.check ent ce = some o →
      o.armed = (if s.fac.enabled ent.level = true ∧
          (countOf s.counts ent.message + 1) % U64 = s.first + 1
        then some (⟨s.tick, ent.message⟩ : Timer) else none)) ∧
    (∀ (c c' : Counters) (k : Key), c.Reset k = some c' → countOf c' k = 0) ∧
    (∀ (s : Sampler) (ent : Entry) (ce : Nat) (o1 : CheckOut) (t2 : List SEvt)
        (s2 : Sampler) (a2 : List Bool) (o2 : CheckOut),
      s.fac.enabled ent.level = true → 1 ≤ s.thereafter →
      s.check ent ce = some o1 → o1.armed.isSome = true →
      List.count SEvt.fire t2 = 0 → t2.length + 1 < U64 →
      runEvts o1.sampler ent ce t2 = some (s2, a2) →
      s2.check ent ce = some o2 → o2.armed = none) := by
  refine ⟨?_, fun c c' k h => countOf_Reset_self c c' k h, ?_⟩
  · intro s ent ce o hth ho
    by_cases hen : s.fac.enabled ent.level = true
    · rw [check_enabled s ent ce hen hth] at ho
      have h2 := (Option.some.inj ho).symm
      rw [h2]
      simp [hen]
    · have hen2 : s.fac.enabled ent.level = false := by simpa using hen
      rw [check_disabled s ent ce hen2] at ho
      have h2 := (Option.some.inj ho).symm
      rw [h2]
      simp [hen2]
  · intro s ent ce o1 t2 s2 a2 o2 hen hth ho1 harm hcnt hlen hrun ho2
    rw [check_enabled s ent ce hen hth] at ho1
    have ho1' := (Option.some.inj ho1).symm
    have hsamp : o1.sampler = { s with counts := (s.counts.Inc ent.message).1 } := by
      rw [ho1']
    have harmx : o1.armed = (if (countOf s.counts ent.message + 1) % U64 = s.first + 1
        then some (⟨s.tick, ent.message⟩ : Timer) else none) := by
      rw [ho1']
    rw [harmx, isSome_ite_timer] at harm
    have hfirst : (countOf s.counts ent.message + 1) % U64 = s.first + 1 :=
      of_decide_eq_true harm
    have hx : s.first + 1 < U64 := by
      rw [← hfirst]
      exact Nat.mod_lt _ U64_pos
    have hnof : SEvt.fire ∉ t2 := List.count_eq_zero.mp hcnt
    have hall : ∀ e ∈ t2, e = SEvt.chk := by
      intro e he
      cases e
      · rfl
      · exact absurd he hnof
    have hrep : t2 = List.replicate t2.length SEvt.chk := List.eq_replicate_of_mem hall
    have hco : countOf ({ s with counts := (s.counts.Inc ent.message).1 } : Sampler).counts
        ent.message = (countOf s.counts ent.message + 1) % U64 :=
      countOf_Inc_self s.counts ent.message
    obtain ⟨s2', hrun', hcnt', hfst', hth', hfac', htick'⟩ :=
      runEvts_chk_closed ent ce t2.length
        ({ s with counts := (s.counts.Inc ent.message).1 } : Sampler) hen hth
        (by rw [hco]; exact Nat.mod_lt _ U64_pos)
    rw [hsamp, hrep, hrun'] at hrun
    have hpair := Option.some.inj hrun
    rw [Prod.mk.injEq] at hpair
    obtain ⟨hs2, -⟩ := hpair
    have hc2 : countOf s2.counts ent.message = (s.first + 1 + t2.length) % U64 := by
      rw [← hs2, hcnt', hco, hfirst]
    have hf2 : s2.first = s.first := by
      rw [← hs2]
      exact hfst'
    have hen2 : s2.fac.enabled ent.level = true := by
      have hfc : s2.fac = s.fac := by
        rw [← hs2]
        exact hfac'
      rw [hfc]
      exact hen
    have hth2 : 1 ≤ s2.thereafter := by
      have htc : s2.thereafter = s.thereafter := by
        rw [← hs2]
        exact hth'
      rw [htc]
      exact hth
    have hne : (countOf s2.counts ent.message + 1) % U64 ≠ s2.first + 1 := by
      rw [hc2, hf2, Nat.mod_add_mod]
      have hge : s.first + 1 + t2.length + 1 = s.first + 1 + (t2.length + 1) := by omega
      rw [hge]
      exact add_mod_ne_self (s.first + 1) (t2.length + 1) U64 hx (by omega) hlen
    rw [check_enabled s2 ent ce hen2 hth2] at ho2
    have ho2' := (Option.some.inj ho2).symm
    have : o2.armed = (if (countOf s2.counts ent.message + 1) % U64 = s2.first + 1
        then some (⟨s2.tick, ent.message⟩ : Timer) else none) := by
      rw [ho2']
    rw [this]
    exact if_neg hne

/-- C8 witness: the no-re-arm theorem applied to a concrete run with
first = 0, thereafter = 2: the first Check arms a timer, the next two
checks (no fire in between) do not, and the following Check does not
re-arm. -/
theorem c8_witness :
    (Sample boolFac 1 0 2).fac.enabled (⟨fooKey, 0⟩ : Entry).level = true ∧
    1 ≤ (Sample boolFac 1 0 2).thereafter ∧
    (Sample boolFac 1 0 2).check ⟨fooKey, 0⟩ 0 = some c8o1 ∧
    c8o1.armed.isSome = true ∧
    List.count SEvt.fire [SEvt.chk, SEvt.chk] = 0 ∧
    ([SEvt.chk, SEvt.chk] : List SEvt).length + 1 < U64 ∧
    runEvts c8o1.sampler ⟨fooKey, 0⟩ 0 [SEvt.chk, SEvt.chk] = some (c8s2, [false, false]) ∧
    c8s2.check ⟨fooKey, 0⟩ 0 = some c8o2 ∧
    c8o2.armed = none :=
  ⟨by decide, by decide, rfl, rfl, by decide, by decide, rfl, rfl,
    c8_timer_discipline.2.2 (Sample boolFac 1 0 2) ⟨fooKey, 0⟩ 0 c8o1 [SEvt.chk, SEvt.chk]
      c8s2 [false, false] c8o2 (by decide) (by decide) rfl rfl (by decide) (by decide) rfl rfl⟩

/-- C8 counterexample: with first = 0, thereafter = 1 and an enabled
level, a trace of 2^64 + 1 consecutive Check calls containing no fire
event (no reset ever runs) arms a timer on call 1 and arms another on
call 2^64 + 1: the wrapping uint64 count revisits first + 1 = 1 without
the key having been reset. -/
theorem c8_counterexample :
    List.count SEvt.fire (List.replicate (U64 + 1) SEvt.chk) = 0 ∧
    (runEvts (Sample boolFac 1 0 1) ⟨fooKey, 0⟩ 0 (List.replicate (U64 + 1) SEvt.chk)).map
      (fun p => (p.2.get? 0, p.2.get? U64)) = some (some true, some true) := by
  constructor
  · rw [List.count_eq_zero]
    intro hmem
    rcases List.mem_replicate.mp hmem with ⟨-, h⟩
    cases h
  · obtain ⟨s2, hrun, -, -, -, -, -⟩ :=
      runEvts_chk_closed ⟨fooKey, 0⟩ 0 (U64 + 1) (Sample boolFac 1 0 1)
        (by decide) (by decide) (by decide)
    rw [hrun]
    simp only [Option.map_some']
    have h0 : (0 : Nat) < U64 + 1 := by omega
    have hU : U64 < U64 + 1 := by omega
    rw [List.get?_map, List.get?_range h0, List.get?_map, List.get?_range hU]
    simp only [Option.map_some']
    have e0 : (countOf (Sample boolFac 1 0 1).counts (⟨fooKey, 0⟩ : Entry).message
        + 0 + 1) % U64 = (Sample boolFac 1 0 1).first + 1 := by
      decide
    have eU : (countOf (Sample boolFac 1 0 1).counts (⟨fooKey, 0⟩ : Entry).message
        + U64 + 1) % U64 = (Sample boolFac 1 0 1).first + 1 := by
      have h4 : countOf (Sample boolFac 1 0 1).counts (⟨fooKey, 0⟩ : Entry).message = 0 := rfl
      rw [h4, Nat.zero_add, Nat.add_mod_left]
      decide
    rw [decide_eq_true e0, decide_eq_true eU]

end Zap
